import Mathlib

/-!
# gopar: packet codec (par2/packet.go) and stream helpers (fs/fs.go)

A shallow embedding of the Go sources.

* A byte is a `Fin 256`; a byte slice or a fixed array is a `List Byte`.
* Go `int` is taken to be 64 bits wide (amd64, arm64); conversions between
  `uint64`, `int64` and `int` wrap explicitly.
* A `*bytes.Buffer` is the list of its unread bytes; every operation returns
  the buffer that is left.
* A run-time panic is the `Outcome.panic` result.
* `crypto/md5.Sum` is the RFC 1321 digest, written out below.
-/

namespace Gopar

/-- One byte. -/
abbrev Byte := Fin 256

/-- Go error values that occur in the two packages.  `other` stands for any
error value produced by a stream implementation. -/
inductive Error where
  | EOF
  | ErrUnexpectedEOF
  | unexpectedMagicString
  | invalidLength
  | couldNotReadBody
  | hashMismatch
  | lenZeroReadStrict
  | readReturnedZeroNil
  | lenZeroReadFullEOF
  | fileTooBig
  | other (code : Nat)
  deriving DecidableEq, Repr

/-- The result of running a Go function: a normal return or a run-time panic. -/
inductive Outcome (α : Type) where
  | ret (a : α)
  | panic
  deriving DecidableEq, Repr

/-- Conversion of a `uint64` value to `int` (64 bits, two's complement). -/
def toInt (x : Nat) : Int :=
  if x % 2 ^ 64 < 2 ^ 63 then ((x % 2 ^ 64 : Nat) : Int)
  else ((x % 2 ^ 64 : Nat) : Int) - 2 ^ 64

/-- Subtraction of `uint64` values, which wraps around. -/
def subUint64 (a b : Nat) : Nat := (2 ^ 64 + a - b) % 2 ^ 64

/-- Little-endian encoding of a number in `n` bytes. -/
def leBytes : Nat → Nat → List Byte
  | 0, _ => []
  | n + 1, x => ⟨x % 256, Nat.mod_lt x (by decide)⟩ :: leBytes n (x / 256)

/-- Little-endian decoding of a byte string. -/
def leNat : List Byte → Nat
  | [] => 0
  | b :: bs => b.val + 256 * leNat bs

/-! ## crypto/md5 -/

namespace md5

/-- Per-round left-rotation amounts. -/
def shifts : List Nat :=
  [7, 12, 17, 22, 7, 12, 17, 22, 7, 12, 17, 22, 7, 12, 17, 22,
   5, 9, 14, 20, 5, 9, 14, 20, 5, 9, 14, 20, 5, 9, 14, 20,
   4, 11, 16, 23, 4, 11, 16, 23, 4, 11, 16, 23, 4, 11, 16, 23,
   6, 10, 15, 21, 6, 10, 15, 21, 6, 10, 15, 21, 6, 10, 15, 21]

/-- The sine table: entry `i` is `floor (2^32 * |sin (i + 1)|)`. -/
def table : List Nat :=
  [0xd76aa478, 0xe8c7b756, 0x242070db, 0xc1bdceee,
   0xf57c0faf, 0x4787c62a, 0xa8304613, 0xfd469501,
   0x698098d8, 0x8b44f7af, 0xffff5bb1, 0x895cd7be,
   0x6b901122, 0xfd987193, 0xa679438e, 0x49b40821,
   0xf61e2562, 0xc040b340, 0x265e5a51, 0xe9b6c7aa,
   0xd62f105d, 0x02441453, 0xd8a1e681, 0xe7d3fbc8,
   0x21e1cde6, 0xc33707d6, 0xf4d50d87, 0x455a14ed,
   0xa9e3e905, 0xfcefa3f8, 0x676f02d9, 0x8d2a4c8a,
   0xfffa3942, 0x8771f681, 0x6d9d6122, 0xfde5380c,
   0xa4beea44, 0x4bdecfa9, 0xf6bb4b60, 0xbebfbc70,
   0x289b7ec6, 0xeaa127fa, 0xd4ef3085, 0x04881d05,
   0xd9d4d039, 0xe6db99e5, 0x1fa27cf8, 0xc4ac5665,
   0xf4292244, 0x432aff97, 0xab9423a7, 0xfc93a039,
   0x655b59c3, 0x8f0ccc92, 0xffeff47d, 0x85845dd1,
   0x6fa87e4f, 0xfe2ce6e0, 0xa3014314, 0x4e0811a1,
   0xf7537e82, 0xbd3af235, 0x2ad7d2bb, 0xeb86d391]

/-- Rotate a 32-bit word left by `s` bits. -/
def rotl (x s : Nat) : Nat :=
  ((x <<< s) ||| (x >>> (32 - s))) % 2 ^ 32

/-- Bitwise complement of a 32-bit word. -/
def not32 (x : Nat) : Nat := x ^^^ 0xffffffff

/-- The digest state: four 32-bit words. -/
structure State where
  a : Nat
  b : Nat
  c : Nat
  d : Nat
  deriving DecidableEq, Repr

/-- The initial state. -/
def init : State := ⟨0x67452301, 0xefcdab89, 0x98badcfe, 0x10325476⟩

/-- Round `i` (0 to 63) on the message words `m` of one block. -/
def step (m : List Nat) (st : State) (i : Nat) : State :=
  let f :=
    if i < 16 then (st.b &&& st.c) ||| (not32 st.b &&& st.d)
    else if i < 32 then (st.d &&& st.b) ||| (not32 st.d &&& st.c)
    else if i < 48 then st.b ^^^ st.c ^^^ st.d
    else st.c ^^^ (st.b ||| not32 st.d)
  let g :=
    if i < 16 then i
    else if i < 32 then (5 * i + 1) % 16
    else if i < 48 then (3 * i + 5) % 16
    else (7 * i) % 16
  let x := (f + st.a + table.getD i 0 + m.getD g 0) % 2 ^ 32
  ⟨st.d, (st.b + rotl x (shifts.getD i 0)) % 2 ^ 32, st.b, st.c⟩

/-- The sixteen little-endian 32-bit words of a 64-byte block. -/
def words (block : List Byte) : List Nat :=
  (List.range 16).map (fun j => leNat ((block.drop (4 * j)).take 4))

/-- Absorb one 64-byte block. -/
def block (st : State) (blk : List Byte) : State :=
  let r := (List.range 64).foldl (step (words blk)) st
  ⟨(st.a + r.a) % 2 ^ 32, (st.b + r.b) % 2 ^ 32,
   (st.c + r.c) % 2 ^ 32, (st.d + r.d) % 2 ^ 32⟩

/-- Message padding: a 0x80 byte, zero bytes up to 56 modulo 64, and the bit
length as a little-endian 64-bit number. -/
def pad (msg : List Byte) : List Byte :=
  msg ++ [0x80] ++ List.replicate ((119 - msg.length % 64) % 64) 0
    ++ leBytes 8 ((8 * msg.length) % 2 ^ 64)

/-- The MD5 digest of a byte string (`md5.Sum`), sixteen bytes. -/
def Sum (msg : List Byte) : List Byte :=
  let p := pad msg
  let st := (List.range (p.length / 64)).foldl
    (fun st j => block st ((p.drop (64 * j)).take 64)) init
  leBytes 4 st.a ++ leBytes 4 st.b ++ leBytes 4 st.c ++ leBytes 4 st.d

end md5

/-! ## bytes.Buffer and encoding/binary -/

/-- A bytes.Buffer, seen as the list of its unread bytes. -/
abbrev Buffer := List Byte

/-- The call io.ReadFull(buf, p) with len(p) = k on a bytes.Buffer: the bytes
stored into p, the error and the buffer left.  A buffer holding k bytes or more
gives them with a nil error; an empty one gives io.EOF; a shorter one is drained
and gives io.ErrUnexpectedEOF. -/
def Buffer.ReadFull (b : Buffer) (k : Nat) : (List Byte × Option Error) × Buffer :=
  if k ≤ b.length then ((b.take k, none), b.drop k)
  else if b.length = 0 then (([], some Error.EOF), [])
  else ((b, some Error.ErrUnexpectedEOF), [])

/-- The method Buffer.Next(n): the next n unread bytes, or all of them when
fewer are left.  For a negative n the slice expression b.buf[b.off : b.off+n]
has its high bound below its low bound and the call panics. -/
def Buffer.Next (b : Buffer) (n : Int) : Outcome (List Byte × Buffer) :=
  let m : Int := b.length
  let n := if n > m then m else n
  if n < 0 then Outcome.panic
  else Outcome.ret (b.take n.toNat, b.drop n.toNat)

/-! ## par2/packet.go -/

/-- The struct packetHeader; the field Type is named Typ here. -/
structure packetHeader where
  Magic : List Byte
  Length : Nat
  Hash : List Byte
  RecoverySetID : List Byte
  Typ : List Byte
  deriving DecidableEq, Repr

/-- The zero value of a sixteen-byte array. -/
def zero16 : List Byte := List.replicate 16 0

/-- The zero value packetHeader{}. -/
def packetHeader.zero : packetHeader :=
  ⟨List.replicate 8 0, 0, zero16, zero16, zero16⟩

/-- The magic constant: the bytes of "PAR2", a zero byte, and "PKT". -/
def expectedMagic : List Byte := [80, 65, 82, 50, 0, 80, 75, 84]

/-- The size of packetHeader: 8 + 8 + 16 + 16 + 16 bytes, no padding. -/
def sizeOfPacketHeader : Nat := 8 + 8 + 16 + 16 + 16

/-- Decoding of the 64 header bytes, field by field, little-endian. -/
def decodeHeader (bs : List Byte) : packetHeader :=
  { Magic := bs.take 8
    Length := leNat ((bs.drop 8).take 8)
    Hash := (bs.drop 16).take 16
    RecoverySetID := (bs.drop 32).take 16
    Typ := (bs.drop 48).take 16 }

/-- The call binary.Read(buf, binary.LittleEndian, &h): reads the 64 bytes of
the struct with io.ReadFull and decodes them when they were all there. -/
def binaryRead (buf : Buffer) : (packetHeader × Option Error) × Buffer :=
  match buf.ReadFull 64 with
  | ((bs, none), rest) => ((decodeHeader bs, none), rest)
  | ((_, some e), rest) => ((packetHeader.zero, some e), rest)

/-- The function readPacketHeader. -/
def readPacketHeader (buf : Buffer) : (packetHeader × Option Error) × Buffer :=
  match binaryRead buf with
  | ((_, some e), rest) => ((packetHeader.zero, some e), rest)
  | ((h, none), rest) =>
    if h.Magic ≠ expectedMagic then
      ((packetHeader.zero, some Error.unexpectedMagicString), rest)
    else if h.Length < sizeOfPacketHeader ∨ h.Length % 4 ≠ 0 then
      ((packetHeader.zero, some Error.invalidLength), rest)
    else ((h, none), rest)

/-- The four values readNextPacket returns; a nil body is none. -/
structure PacketResult where
  setID : List Byte
  typ : List Byte
  body : Option (List Byte)
  err : Option Error
  deriving DecidableEq, Repr

/-- The return value on every error path: zero set id, zero type, nil body. -/
def PacketResult.failure (e : Error) : PacketResult :=
  ⟨zero16, zero16, none, some e⟩

/-- The function readNextPacket, with the buffer that is left. -/
def readNextPacket (buf : Buffer) : Outcome (PacketResult × Buffer) :=
  match readPacketHeader buf with
  | ((_, some e), rest) => Outcome.ret (PacketResult.failure e, rest)
  | ((h, none), rest) =>
    let bodyLength : Int := toInt (subUint64 h.Length sizeOfPacketHeader)
    match rest.Next bodyLength with
    | Outcome.panic => Outcome.panic
    | Outcome.ret (body, rest2) =>
      if (body.length : Int) ≠ bodyLength then
        Outcome.ret (PacketResult.failure Error.couldNotReadBody, rest2)
      else
        let hashInput := h.RecoverySetID ++ h.Typ ++ body
        if md5.Sum hashInput ≠ h.Hash then
          Outcome.ret (PacketResult.failure Error.hashMismatch, rest2)
        else Outcome.ret (⟨h.RecoverySetID, h.Typ, some body, none⟩, rest2)

/-- Modelled from the spec: writePacket, the serializer of section 4.3, is not
among the sources.  It computes the hash of set id, type and body, emits the
header and the body, and pads the body with zero bytes to a multiple of four
before the length field is fixed. -/
def writePacket (setID typ body : List Byte) : List Byte :=
  let hash := md5.Sum (setID ++ typ ++ body)
  let padded := body ++ List.replicate ((4 - body.length % 4) % 4) 0
  expectedMagic ++ leBytes 8 (sizeOfPacketHeader + padded.length) ++ hash
    ++ setID ++ typ ++ padded

/-- A corrupt packet for examples: a header with the magic, the length field
2^64 - 4, zero hash, zero set id and zero type, followed by four bytes. -/
def corruptLengthPacket : Buffer :=
  expectedMagic ++ leBytes 8 (2 ^ 64 - 4) ++ zero16 ++ zero16 ++ zero16 ++ [1, 2, 3, 4]

/-! ## fs/fs.go -/

/-- A method call made on a stream. -/
inductive Call where
  | ByteCount
  | Read (len : Nat)
  | Write (p : List Byte)
  | Close
  deriving DecidableEq, Repr

/-- An io.Reader with states in σ.  Read, given the state and len(p), returns
the bytes it stores into p (their number is the n of the Go method), the error
and the next state. -/
structure Reader (σ : Type) where
  Read : σ → Nat → (List Byte × Option Error) × σ

/-- The interface ReadStream: io.Reader, io.Closer and ByteCount. -/
structure ReadStream (σ : Type) extends Reader σ where
  Close : σ → Option Error × σ
  ByteCount : σ → Int

/-- The interface WriteStream: io.Writer and io.Closer. -/
structure WriteStream (σ : Type) where
  Write : σ → List Byte → (Nat × Option Error) × σ
  Close : σ → Option Error × σ

/-- A stream state together with the calls made on the stream so far. -/
abbrev World (σ : Type) := σ × List Call

/-- The call r.Read(p) with len(p) = k, recorded.  A reader stores at most
len(p) bytes. -/
def callRead {σ : Type} (r : Reader σ) (w : World σ) (k : Nat) :
    (List Byte × Option Error) × World σ :=
  (((r.Read w.1 k).1.1.take k, (r.Read w.1 k).1.2), ((r.Read w.1 k).2, w.2 ++ [Call.Read k]))

/-- The call closer.Close(), recorded. -/
def callClose {σ : Type} (close : σ → Option Error × σ) (w : World σ) :
    Option Error × World σ :=
  ((close w.1).1, ((close w.1).2, w.2 ++ [Call.Close]))

/-- Conversion of an integer to a signed 64-bit type (int64, and int). -/
def wrap64 (x : Int) : Int := (x + 2 ^ 63) % 2 ^ 64 - 2 ^ 63

/-- The function closeCloser: closes, and stores the error of Close into err
when err is nil. -/
def closeCloser {σ : Type} (close : σ → Option Error × σ) (w : World σ)
    (err : Option Error) : Option Error × World σ :=
  let (closeErr, w1) := callClose close w
  if err = none then (closeErr, w1) else (err, w1)

/-- The function readStrict on a buffer of length bufLen: the bytes read and
the error. -/
def readStrict {σ : Type} (r : Reader σ) (w : World σ) (bufLen : Nat) :
    (List Byte × Option Error) × World σ :=
  if bufLen = 0 then (([], some Error.lenZeroReadStrict), w)
  else
    let ((chunk, err), w1) := callRead r w bufLen
    if chunk.length = 0 ∧ err = none then ((chunk, some Error.readReturnedZeroNil), w1)
    else ((chunk, err), w1)

/-- The bytes of buf after chunk has been stored at offset n. -/
def store (buf : List Byte) (n : Nat) (chunk : List Byte) : List Byte :=
  buf.take n ++ chunk ++ buf.drop (n + chunk.length)

/-- The loop of readFullEOF, for at most fuel iterations: the buffer, n and err
when the loop condition fails. -/
def readFullEOF.loop {σ : Type} (r : Reader σ) :
    Nat → World σ → List Byte → Nat → Option Error →
      (List Byte × Nat × Option Error) × World σ
  | 0, w, buf, n, err => ((buf, n, err), w)
  | fuel + 1, w, buf, n, err =>
    if n < buf.length ∧ err = none then
      let ((chunk, err1), w1) := readStrict r w (buf.length - n)
      readFullEOF.loop r fuel w1 (store buf n chunk) (n + chunk.length) err1
    else ((buf, n, err), w)

/-- The function readFullEOF: the buffer as it is left, n and err.  The loop
reads at least one byte in every iteration that leaves err nil, so len(buf)
iterations are enough. -/
def readFullEOF {σ : Type} (r : Reader σ) (w : World σ) (buf : List Byte) :
    (List Byte × Nat × Option Error) × World σ :=
  if buf.length = 0 then ((buf, 0, some Error.lenZeroReadFullEOF), w)
  else
    let ((buf1, n, err), w1) := readFullEOF.loop r buf.length w buf 0 none
    if n < buf1.length then
      ((buf1, n, if err = some Error.EOF then some Error.ErrUnexpectedEOF else err), w1)
    else
      let err := if err = some Error.EOF then none else err
      if err ≠ none then ((buf1, n, err), w1)
      else
        let ((_, err2), w2) := readStrict r w1 1
        ((buf1, n, if err2 = some Error.EOF then none else err2), w2)

/-- The body of ReadAndClose, before the deferred call runs: the values of data
and err at the return statement, or a panic (make with a negative length).
The allocation by make is taken to succeed for every other length. -/
def ReadAndClose.body {σ : Type} (rs : ReadStream σ) (w : World σ) :
    Outcome (Option (List Byte) × Option Error) × World σ :=
  let byteCount := rs.ByteCount w.1
  let w0 : World σ := (w.1, w.2 ++ [Call.ByteCount])
  if wrap64 (wrap64 byteCount) ≠ byteCount then
    (Outcome.ret (none, some Error.fileTooBig), w0)
  else if byteCount < 0 then (Outcome.panic, w0)
  else
    let data : List Byte := List.replicate byteCount.toNat 0
    if data.length > 0 then
      let ((data1, _, err), w1) := readFullEOF rs.toReader w0 data
      if err ≠ none then (Outcome.ret (none, err), w1)
      else (Outcome.ret (some data1, none), w1)
    else (Outcome.ret (some data, none), w0)

/-- The function ReadAndClose: the body, then the deferred closeCloser, which
also runs when the body panics. -/
def ReadAndClose {σ : Type} (rs : ReadStream σ) (w : World σ) :
    Outcome (Option (List Byte) × Option Error) × World σ :=
  match ReadAndClose.body rs w with
  | (Outcome.ret (data, err), w1) =>
    let (err1, w2) := closeCloser rs.Close w1 err
    (Outcome.ret (data, err1), w2)
  | (Outcome.panic, w1) => (Outcome.panic, (closeCloser rs.Close w1 none).2)

/-- The function WriteAndClose: Write, then the deferred closeCloser. -/
def WriteAndClose {σ : Type} (ws : WriteStream σ) (w : World σ) (p : List Byte) :
    Option Error × World σ :=
  let err := (ws.Write w.1 p).1.2
  let w1 : World σ := ((ws.Write w.1 p).2, w.2 ++ [Call.Write p])
  closeCloser ws.Close w1 err

/-- The stream hands out the chunks, one per Read call and each with a nil
error, when asked for all the bytes still to come, and answers the Read after
the last chunk with no bytes and io.EOF. -/
def Delivers {σ : Type} (r : Reader σ) : List (List Byte) → σ → Prop
  | [], s => (r.Read s 1).1 = ([], some Error.EOF)
  | ch :: rest, s =>
    ch ≠ [] ∧ (r.Read s (ch :: rest).flatten.length).1 = (ch, none) ∧
      Delivers r rest (r.Read s (ch :: rest).flatten.length).2

/-- A scripted stream for examples: every Read returns the next scripted
answer, and io.EOF once the script is used up; ByteCount and the error of Close
are fixed. -/
def scriptStream (count : Int) (closeErr : Option Error) :
    ReadStream (List (List Byte × Option Error)) where
  Read s _ := match s with
    | [] => (([], some Error.EOF), [])
    | a :: rest => (a, rest)
  Close s := (closeErr, s)
  ByteCount _ := count

/-- A scripted write stream for examples: Write accepts p with the given error,
Close returns the given error; the state counts the bytes written. -/
def scriptWriter (writeErr closeErr : Option Error) : WriteStream Nat where
  Write s p := ((p.length, writeErr), s + p.length)
  Close s := (closeErr, s)

/-! ## Lemmas on the encodings and on bytes.Buffer -/

theorem leBytes_length (n x : Nat) : (leBytes n x).length = n := by
  induction n generalizing x with
  | zero => rfl
  | succ n ih => simp [leBytes, ih]

theorem leNat_leBytes (n x : Nat) (h : x < 256 ^ n) : leNat (leBytes n x) = x := by
  induction n generalizing x with
  | zero => simp at h; subst h; rfl
  | succ n ih =>
    have h1 : x / 256 < 256 ^ n := by
      rw [Nat.div_lt_iff_lt_mul (by decide)]
      rw [pow_succ] at h
      exact h
    simp only [leBytes, leNat, ih _ h1]
    omega

theorem md5.Sum_length (msg : List Byte) : (md5.Sum msg).length = 16 := by
  simp [md5.Sum, leBytes_length]

theorem decodeHeader_take (buf : List Byte) : decodeHeader (buf.take 64) = decodeHeader buf := by
  simp [decodeHeader, List.take_take, List.drop_take]

theorem decodeHeader_append (hdr tail : List Byte) (h : hdr.length = 64) :
    decodeHeader (hdr ++ tail) = decodeHeader hdr := by
  rw [← decodeHeader_take (hdr ++ tail), List.take_left' h]

theorem decodeHeader_fields (magic len hash id ty : List Byte)
    (hm : magic.length = 8) (hl : len.length = 8) (hh : hash.length = 16)
    (hi : id.length = 16) (ht : ty.length = 16) :
    decodeHeader (magic ++ len ++ hash ++ id ++ ty) = ⟨magic, leNat len, hash, id, ty⟩ := by
  have d1 : ∀ k, 8 ≤ k → magic.drop k = [] := fun k hk => List.drop_eq_nil_of_le (by omega)
  have d2 : ∀ k, 8 ≤ k → len.drop k = [] := fun k hk => List.drop_eq_nil_of_le (by omega)
  have d3 : ∀ k, 16 ≤ k → hash.drop k = [] := fun k hk => List.drop_eq_nil_of_le (by omega)
  have t1 : ty.take 16 = ty := List.take_of_length_le (by omega)
  simp [decodeHeader, List.take_append_eq_append_take, List.drop_append_eq_append_drop,
    hm, hl, hh, hi, ht, d1, d2, d3, t1]

theorem readPacketHeader_short (buf : Buffer) (h : buf.length < 64) :
    ∃ e, readPacketHeader buf = ((packetHeader.zero, some e), []) := by
  unfold readPacketHeader binaryRead Buffer.ReadFull
  have h1 : ¬ 64 ≤ buf.length := by omega
  by_cases h0 : buf.length = 0
  · exact ⟨Error.EOF, by simp [h1, h0]⟩
  · exact ⟨Error.ErrUnexpectedEOF, by simp [h1, h0]⟩

theorem readPacketHeader_full (buf : Buffer) (h : 64 ≤ buf.length) :
    readPacketHeader buf =
      if (decodeHeader buf).Magic ≠ expectedMagic then
        ((packetHeader.zero, some Error.unexpectedMagicString), buf.drop 64)
      else if (decodeHeader buf).Length < sizeOfPacketHeader ∨ (decodeHeader buf).Length % 4 ≠ 0 then
        ((packetHeader.zero, some Error.invalidLength), buf.drop 64)
      else ((decodeHeader buf, none), buf.drop 64) := by
  unfold readPacketHeader binaryRead Buffer.ReadFull
  simp only [h, if_true, decodeHeader_take]

theorem leNat_lt (bs : List Byte) : leNat bs < 256 ^ bs.length := by
  induction bs with
  | nil => simp [leNat]
  | cons b bs ih =>
    have hb := b.isLt
    simp only [leNat, List.length_cons, pow_succ]
    omega

theorem decodeHeader_Length_lt (buf : List Byte) : (decodeHeader buf).Length < 2 ^ 64 := by
  have h := leNat_lt ((buf.drop 8).take 8)
  have h2 : ((buf.drop 8).take 8).length ≤ 8 := by simp
  have h3 : 256 ^ ((buf.drop 8).take 8).length ≤ 256 ^ 8 := Nat.pow_le_pow_right (by decide) h2
  have h4 : (256 : Nat) ^ 8 = 2 ^ 64 := by norm_num
  simp only [decodeHeader]
  omega

theorem toInt_of_lt (x : Nat) (h : x < 2 ^ 63) : toInt x = (x : Int) := by
  have h1 : x % 2 ^ 64 = x := Nat.mod_eq_of_lt (by omega)
  unfold toInt
  rw [h1, if_pos h]

theorem toInt_neg (x : Nat) (h : 2 ^ 63 ≤ x) (h2 : x < 2 ^ 64) : toInt x < 0 := by
  have h1 : x % 2 ^ 64 = x := Nat.mod_eq_of_lt h2
  have h3 : ¬ x < 2 ^ 63 := by omega
  simp only [toInt, h1, h3, if_false]
  omega

theorem bodyLength_eq (L : Nat) (h1 : sizeOfPacketHeader ≤ L) (h2 : L < 2 ^ 64) :
    subUint64 L sizeOfPacketHeader = L - 64 := by
  simp only [sizeOfPacketHeader, subUint64] at *
  omega

theorem Buffer.Next_of_le (b : Buffer) (n : Nat) (h : n ≤ b.length) :
    Buffer.Next b (n : Int) = Outcome.ret (b.take n, b.drop n) := by
  have h1 : ¬ ((n : Int) > (b.length : Int)) := by omega
  have h2 : ¬ ((n : Int) < 0) := by omega
  simp [Buffer.Next, h1, h2]

theorem Buffer.Next_of_gt (b : Buffer) (n : Nat) (h : b.length < n) :
    Buffer.Next b (n : Int) = Outcome.ret (b, []) := by
  have h1 : ((n : Int) > (b.length : Int)) := by omega
  simp [Buffer.Next, h1]

theorem Buffer.Next_of_neg (b : Buffer) (n : Int) (h : n < 0) :
    Buffer.Next b n = Outcome.panic := by
  have h1 : ¬ (n > (b.length : Int)) := by omega
  simp [Buffer.Next, h1, h]

/-- What readNextPacket does once the 64 header bytes are there and pass the
checks of readPacketHeader. -/
theorem readNextPacket_valid_header (buf : Buffer) (h64 : 64 ≤ buf.length)
    (hm : (decodeHeader buf).Magic = expectedMagic)
    (hL : 64 ≤ (decodeHeader buf).Length) (h4 : (decodeHeader buf).Length % 4 = 0) :
    readNextPacket buf =
      if 2 ^ 63 ≤ (decodeHeader buf).Length - 64 then Outcome.panic
      else if buf.length < (decodeHeader buf).Length then
        Outcome.ret (PacketResult.failure Error.couldNotReadBody, [])
      else if md5.Sum ((decodeHeader buf).RecoverySetID ++ (decodeHeader buf).Typ ++
          (buf.drop 64).take ((decodeHeader buf).Length - 64)) ≠ (decodeHeader buf).Hash then
        Outcome.ret (PacketResult.failure Error.hashMismatch, buf.drop (decodeHeader buf).Length)
      else
        Outcome.ret (⟨(decodeHeader buf).RecoverySetID, (decodeHeader buf).Typ,
          some ((buf.drop 64).take ((decodeHeader buf).Length - 64)), none⟩,
          buf.drop (decodeHeader buf).Length) := by
  have hlt := decodeHeader_Length_lt buf
  have hhdr : readPacketHeader buf = ((decodeHeader buf, none), buf.drop 64) := by
    rw [readPacketHeader_full buf h64]
    have h1 : ¬ ((decodeHeader buf).Length < sizeOfPacketHeader ∨ (decodeHeader buf).Length % 4 ≠ 0) := by
      simp only [sizeOfPacketHeader]; omega
    simp only [hm, ne_eq, not_true_eq_false, if_false, h1]
  have hbl := bodyLength_eq (decodeHeader buf).Length (by simp only [sizeOfPacketHeader]; omega) hlt
  unfold readNextPacket
  simp only [hhdr, hbl]
  by_cases hov : 2 ^ 63 ≤ (decodeHeader buf).Length - 64
  · rw [Buffer.Next_of_neg _ _ (toInt_neg _ hov (by omega)), if_pos hov]
  · rw [toInt_of_lt _ (by omega), if_neg hov]
    by_cases hs : buf.length < (decodeHeader buf).Length
    · rw [Buffer.Next_of_gt _ _ (by simp; omega), if_pos hs]
      have : ((buf.drop 64).length : Int) ≠ (((decodeHeader buf).Length - 64 : Nat) : Int) := by
        simp; omega
      simp only [if_pos this]
    · rw [Buffer.Next_of_le _ _ (by simp; omega), if_neg hs]
      have h5 : (((buf.drop 64).take ((decodeHeader buf).Length - 64)).length : Int)
          = (((decodeHeader buf).Length - 64 : Nat) : Int) := by
        simp; omega
      have h6 : (buf.drop 64).drop ((decodeHeader buf).Length - 64) = buf.drop (decodeHeader buf).Length := by
        rw [List.drop_drop]; congr 1; omega
      simp only [h5, ne_eq, not_true_eq_false, if_false, h6]

theorem readNextPacket_short_header (buf : Buffer) (h : buf.length < 64) :
    ∃ e, readNextPacket buf = Outcome.ret (PacketResult.failure e, []) := by
  obtain ⟨e, he⟩ := readPacketHeader_short buf h
  exact ⟨e, by unfold readNextPacket; rw [he]⟩

theorem readNextPacket_bad_header (buf : Buffer) (h64 : 64 ≤ buf.length)
    (h : (decodeHeader buf).Magic ≠ expectedMagic ∨ (decodeHeader buf).Length < 64 ∨
      (decodeHeader buf).Length % 4 ≠ 0) :
    ∃ e, readNextPacket buf = Outcome.ret (PacketResult.failure e, buf.drop 64) := by
  by_cases hm : (decodeHeader buf).Magic ≠ expectedMagic
  · refine ⟨Error.unexpectedMagicString, ?_⟩
    unfold readNextPacket
    rw [readPacketHeader_full buf h64, if_pos hm]
  · have hl : (decodeHeader buf).Length < sizeOfPacketHeader ∨ (decodeHeader buf).Length % 4 ≠ 0 := by
      rcases h with h | h | h
      · exact absurd h hm
      · exact Or.inl h
      · exact Or.inr h
    refine ⟨Error.invalidLength, ?_⟩
    unfold readNextPacket
    rw [readPacketHeader_full buf h64, if_neg hm, if_pos hl]

/-- Success of readNextPacket, characterised on the bytes of the buffer. -/
theorem readNextPacket_success (buf : Buffer) (r : PacketResult) (rest : Buffer)
    (h : readNextPacket buf = Outcome.ret (r, rest)) (hok : r.err = none) :
    64 ≤ buf.length ∧ (decodeHeader buf).Magic = expectedMagic ∧
    64 ≤ (decodeHeader buf).Length ∧ (decodeHeader buf).Length % 4 = 0 ∧
    (decodeHeader buf).Length - 64 < 2 ^ 63 ∧ (decodeHeader buf).Length ≤ buf.length ∧
    md5.Sum ((decodeHeader buf).RecoverySetID ++ (decodeHeader buf).Typ ++
      (buf.drop 64).take ((decodeHeader buf).Length - 64)) = (decodeHeader buf).Hash ∧
    r = ⟨(decodeHeader buf).RecoverySetID, (decodeHeader buf).Typ,
      some ((buf.drop 64).take ((decodeHeader buf).Length - 64)), none⟩ ∧
    rest = buf.drop (decodeHeader buf).Length := by
  by_cases h64 : 64 ≤ buf.length
  swap
  · obtain ⟨e, he⟩ := readNextPacket_short_header buf (by omega)
    rw [he] at h
    injection h with h
    injection h with h1 h2
    subst h1
    simp [PacketResult.failure] at hok
  by_cases hb : (decodeHeader buf).Magic ≠ expectedMagic ∨ (decodeHeader buf).Length < 64 ∨
      (decodeHeader buf).Length % 4 ≠ 0
  · obtain ⟨e, he⟩ := readNextPacket_bad_header buf h64 hb
    rw [he] at h
    injection h with h
    injection h with h1 h2
    subst h1
    simp [PacketResult.failure] at hok
  have hm : (decodeHeader buf).Magic = expectedMagic := by
    by_contra hc; exact hb (Or.inl hc)
  have hL : 64 ≤ (decodeHeader buf).Length := by
    by_contra hc; exact hb (Or.inr (Or.inl (by omega)))
  have h4 : (decodeHeader buf).Length % 4 = 0 := by
    by_contra hc; exact hb (Or.inr (Or.inr hc))
  rw [readNextPacket_valid_header buf h64 hm hL h4] at h
  by_cases hov : 2 ^ 63 ≤ (decodeHeader buf).Length - 64
  · rw [if_pos hov] at h
    exact Outcome.noConfusion h
  rw [if_neg hov] at h
  by_cases hs : buf.length < (decodeHeader buf).Length
  · rw [if_pos hs] at h
    injection h with h
    injection h with h1 h2
    subst h1
    simp [PacketResult.failure] at hok
  rw [if_neg hs] at h
  by_cases hh : md5.Sum ((decodeHeader buf).RecoverySetID ++ (decodeHeader buf).Typ ++
      (buf.drop 64).take ((decodeHeader buf).Length - 64)) ≠ (decodeHeader buf).Hash
  · rw [if_pos hh] at h
    injection h with h
    injection h with h1 h2
    subst h1
    simp [PacketResult.failure] at hok
  rw [if_neg hh] at h
  injection h with h
  injection h with h1 h2
  exact ⟨h64, hm, hL, h4, by omega, by omega, not_not.mp hh, h1.symm, h2.symm⟩

/-- A buffer that starts with a header in the fixed layout, followed by a body
of the announced length. -/
theorem readNextPacket_layout_aux (hash id ty body rest : List Byte)
    (hh : hash.length = 16) (hid : id.length = 16) (hty : ty.length = 16)
    (h4 : body.length % 4 = 0) (hlen : body.length < 2 ^ 63) :
    readNextPacket (expectedMagic ++ leBytes 8 (64 + body.length) ++ hash ++ id ++ ty
        ++ body ++ rest) =
      if md5.Sum (id ++ ty ++ body) ≠ hash then
        Outcome.ret (PacketResult.failure Error.hashMismatch, rest)
      else Outcome.ret (⟨id, ty, some body, none⟩, rest) := by
  have hhl : (expectedMagic ++ leBytes 8 (64 + body.length) ++ hash ++ id ++ ty).length = 64 := by
    simp [expectedMagic, leBytes_length, hh, hid, hty]
  have hbuf : expectedMagic ++ leBytes 8 (64 + body.length) ++ hash ++ id ++ ty ++ body ++ rest
      = (expectedMagic ++ leBytes 8 (64 + body.length) ++ hash ++ id ++ ty) ++ (body ++ rest) := by
    simp only [List.append_assoc]
  have hpow : (256 : Nat) ^ 8 = 2 ^ 64 := by norm_num
  have hdec : decodeHeader (expectedMagic ++ leBytes 8 (64 + body.length) ++ hash ++ id ++ ty
      ++ body ++ rest) = ⟨expectedMagic, 64 + body.length, hash, id, ty⟩ := by
    rw [hbuf, decodeHeader_append _ _ hhl,
      decodeHeader_fields expectedMagic _ hash id ty rfl (leBytes_length _ _) hh hid hty,
      leNat_leBytes _ _ (by omega)]
  have hlen64 : 64 ≤ (expectedMagic ++ leBytes 8 (64 + body.length) ++ hash ++ id ++ ty
      ++ body ++ rest).length := by
    rw [hbuf, List.length_append, hhl]; omega
  rw [readNextPacket_valid_header _ hlen64 (by rw [hdec]) (by rw [hdec]; simp)
    (by rw [hdec]; simp only; omega)]
  rw [hdec]
  simp only
  have e1 : 64 + body.length - 64 = body.length := by omega
  have hov : ¬ (2 ^ 63 ≤ 64 + body.length - 64) := by omega
  have hs : ¬ ((expectedMagic ++ leBytes 8 (64 + body.length) ++ hash ++ id ++ ty
      ++ body ++ rest).length < 64 + body.length) := by
    rw [hbuf, List.length_append, hhl, List.length_append]; omega
  have hd64 : (expectedMagic ++ leBytes 8 (64 + body.length) ++ hash ++ id ++ ty
      ++ body ++ rest).drop 64 = body ++ rest := by
    rw [hbuf, List.drop_left' hhl]
  have hdL : (expectedMagic ++ leBytes 8 (64 + body.length) ++ hash ++ id ++ ty
      ++ body ++ rest).drop (64 + body.length) = rest := by
    rw [← List.drop_drop, hd64, List.drop_left]
  rw [if_neg hov, if_neg hs, hd64, hdL, e1, List.take_left]

/-! ## Known answers of the digest -/

set_option maxRecDepth 100000 in
/-- The digest of the empty message is d41d8cd98f00b204e9800998ecf8427e. -/
theorem md5.Sum_nil :
    md5.Sum [] = [212, 29, 140, 217, 143, 0, 178, 4, 233, 128, 9, 152, 236, 248, 66, 126] := by
  decide

set_option maxRecDepth 100000 in
/-- The digest of the message abc is 900150983cd24fb0d6963f7d28e17f72. -/
theorem md5.Sum_abc :
    md5.Sum [97, 98, 99] =
      [144, 1, 80, 152, 60, 210, 79, 176, 214, 150, 63, 125, 40, 225, 127, 114] := by
  decide

/-! ## par2/packet.go: the claims -/

/-- C1. A buffer that holds the magic, the little-endian length 64 + len(body),
the MD5 of set id, type and body, the 16-byte set id, the 16-byte type, a body
whose length is a multiple of 4 and any trailing bytes: readNextPacket returns
the set id, the type and the body with a nil error (and leaves the trailing
bytes).  The bound on the body length is the one every Go slice has. -/
theorem readNextPacket_reads_layout (id ty body rest : List Byte)
    (hid : id.length = 16) (hty : ty.length = 16)
    (h4 : body.length % 4 = 0) (hlen : body.length < 2 ^ 63) :
    readNextPacket (expectedMagic ++ leBytes 8 (64 + body.length)
        ++ md5.Sum (id ++ ty ++ body) ++ id ++ ty ++ body ++ rest) =
      Outcome.ret (⟨id, ty, some body, none⟩, rest) := by
  rw [readNextPacket_layout_aux _ id ty body rest (md5.Sum_length _) hid hty h4 hlen]
  simp

/-- The theorem for C1 at a packet with zero set id, zero type, the body
1, 2, 3, 4 and one trailing byte. -/
theorem readNextPacket_reads_layout_witness :
    readNextPacket (expectedMagic ++ leBytes 8 (64 + ([1, 2, 3, 4] : List Byte).length)
        ++ md5.Sum (zero16 ++ zero16 ++ [1, 2, 3, 4]) ++ zero16 ++ zero16 ++ [1, 2, 3, 4] ++ [9]) =
      Outcome.ret (⟨zero16, zero16, some [1, 2, 3, 4], none⟩, [9]) :=
  readNextPacket_reads_layout zero16 zero16 [1, 2, 3, 4] [9] (by decide) (by decide)
    (by decide) (by decide)

/-- C2, as amended. For a body whose length is a multiple of 4 (the empty body
included) readNextPacket gives back what writePacket was given, and nothing is
left in the buffer. -/
theorem readNextPacket_writePacket (id ty body : List Byte)
    (hid : id.length = 16) (hty : ty.length = 16)
    (h4 : body.length % 4 = 0) (hlen : body.length < 2 ^ 63) :
    readNextPacket (writePacket id ty body) =
      Outcome.ret (⟨id, ty, some body, none⟩, []) := by
  have hpad : body ++ List.replicate ((4 - body.length % 4) % 4) 0 = body := by
    rw [h4]; simp
  have h := readNextPacket_layout_aux (md5.Sum (id ++ ty ++ body)) id ty body []
    (md5.Sum_length _) hid hty h4 hlen
  simp only [List.append_nil, ne_eq, not_true_eq_false, if_false] at h
  simp only [writePacket, hpad, sizeOfPacketHeader]
  exact h

/-- The round trip at the empty body. -/
theorem readNextPacket_writePacket_witness :
    readNextPacket (writePacket zero16 zero16 []) =
      Outcome.ret (⟨zero16, zero16, some [], none⟩, []) :=
  readNextPacket_writePacket zero16 zero16 [] (by decide) (by decide) (by decide) (by decide)

set_option maxRecDepth 100000 in
/-- C2, counterexample. For the one-byte body [1] the packet written carries
the hash of the unpadded body and the padded body [1, 0, 0, 0]: readNextPacket
answers with the hash mismatch error instead of the body. -/
theorem readNextPacket_writePacket_counterexample :
    readNextPacket (writePacket zero16 zero16 [1]) =
        Outcome.ret (PacketResult.failure Error.hashMismatch, []) ∧
      readNextPacket (writePacket zero16 zero16 [1]) ≠
        Outcome.ret (⟨zero16, zero16, some [1], none⟩, []) := by
  decide

/-- Where the body length fits a signed int, structural corruption is
rejected: when the first 8 bytes are not the magic, or the length field is
below 64, or it is not a multiple of 4, or the MD5 of set id, type and the
body bytes in the buffer (bytes 64 to length, as far as the buffer goes) is not
the hash stored in the header, readNextPacket returns an error with a zero set
id, a zero type and a nil body. -/
theorem readNextPacket_rejects_when_length_fits (buf : Buffer)
    (h : (decodeHeader buf).Magic ≠ expectedMagic ∨ (decodeHeader buf).Length < 64 ∨
      (decodeHeader buf).Length % 4 ≠ 0 ∨
      ((decodeHeader buf).Length - 64 < 2 ^ 63 ∧
        md5.Sum ((decodeHeader buf).RecoverySetID ++ (decodeHeader buf).Typ ++
          (buf.drop 64).take ((decodeHeader buf).Length - 64)) ≠ (decodeHeader buf).Hash)) :
    ∃ e rest, readNextPacket buf = Outcome.ret (⟨zero16, zero16, none, some e⟩, rest) := by
  by_cases h64 : 64 ≤ buf.length
  swap
  · obtain ⟨e, he⟩ := readNextPacket_short_header buf (by omega)
    exact ⟨e, [], he⟩
  by_cases hb : (decodeHeader buf).Magic ≠ expectedMagic ∨ (decodeHeader buf).Length < 64 ∨
      (decodeHeader buf).Length % 4 ≠ 0
  · obtain ⟨e, he⟩ := readNextPacket_bad_header buf h64 hb
    exact ⟨e, _, he⟩
  have hm : (decodeHeader buf).Magic = expectedMagic := by
    by_contra hc; exact hb (Or.inl hc)
  have hL : 64 ≤ (decodeHeader buf).Length := by
    by_contra hc; exact hb (Or.inr (Or.inl (by omega)))
  have h4 : (decodeHeader buf).Length % 4 = 0 := by
    by_contra hc; exact hb (Or.inr (Or.inr hc))
  have hhash : (decodeHeader buf).Length - 64 < 2 ^ 63 ∧
      md5.Sum ((decodeHeader buf).RecoverySetID ++ (decodeHeader buf).Typ ++
        (buf.drop 64).take ((decodeHeader buf).Length - 64)) ≠ (decodeHeader buf).Hash := by
    rcases h with h | h | h | h
    · exact absurd hm h
    · omega
    · exact absurd h4 h
    · exact h
  rw [readNextPacket_valid_header buf h64 hm hL h4, if_neg (by omega)]
  by_cases hs : buf.length < (decodeHeader buf).Length
  · exact ⟨Error.couldNotReadBody, [], by rw [if_pos hs]; rfl⟩
  · exact ⟨Error.hashMismatch, buf.drop (decodeHeader buf).Length, by
      rw [if_neg hs, if_pos hhash.2]; rfl⟩

set_option maxRecDepth 100000 in
/-- C3, at the failing input. The buffer corruptLengthPacket has the magic, the
length field 2^64 - 4 (not below 64, a multiple of 4), a zero hash, and the
four bytes 1, 2, 3, 4 after the header.  The MD5 of its set id, type and body
bytes is not the stored hash, and readNextPacket panics: it returns no error. -/
theorem readNextPacket_corrupt_length_panics :
    (decodeHeader corruptLengthPacket).Magic = expectedMagic ∧
    (decodeHeader corruptLengthPacket).Length = 2 ^ 64 - 4 ∧
    md5.Sum ((decodeHeader corruptLengthPacket).RecoverySetID ++
        (decodeHeader corruptLengthPacket).Typ ++ (corruptLengthPacket.drop 64).take
          ((decodeHeader corruptLengthPacket).Length - 64))
      ≠ (decodeHeader corruptLengthPacket).Hash ∧
    readNextPacket corruptLengthPacket = Outcome.panic := by
  decide

/-- C4, at the failing input. A valid 64-byte header whose length field is
2^63 + 64 and no body: the body length converts to the negative int -2^63,
Buffer.Next slices with a high bound below the low bound, and readNextPacket
panics instead of returning the could-not-read-body error. -/
theorem readNextPacket_length_overflow_panics :
    readNextPacket (expectedMagic ++ leBytes 8 (2 ^ 63 + 64) ++ zero16 ++ zero16 ++ zero16) =
      Outcome.panic := by
  decide

/-- Where the body length fits a signed int, a valid header followed by fewer
bytes than announced gives the could-not-read-body error. -/
theorem readNextPacket_short_body (buf : Buffer) (h64 : 64 ≤ buf.length)
    (hm : (decodeHeader buf).Magic = expectedMagic)
    (hL : 64 ≤ (decodeHeader buf).Length) (h4 : (decodeHeader buf).Length % 4 = 0)
    (hfit : (decodeHeader buf).Length - 64 < 2 ^ 63)
    (hshort : buf.length - 64 < (decodeHeader buf).Length - 64) :
    readNextPacket buf = Outcome.ret (PacketResult.failure Error.couldNotReadBody, []) := by
  rw [readNextPacket_valid_header buf h64 hm hL h4, if_neg (by omega), if_pos (by omega)]

/-- Every length field of 2^63 + 64 or more behind a valid magic makes
readNextPacket panic, whatever follows the header. -/
theorem readNextPacket_overflow (buf : Buffer) (h64 : 64 ≤ buf.length)
    (hm : (decodeHeader buf).Magic = expectedMagic)
    (h4 : (decodeHeader buf).Length % 4 = 0)
    (hbig : 2 ^ 63 + 64 ≤ (decodeHeader buf).Length) :
    readNextPacket buf = Outcome.panic := by
  rw [readNextPacket_valid_header buf h64 hm (by omega) h4, if_pos (by omega)]

/-- The length field decoded from a buffer that starts with a header in the
fixed layout. -/
theorem decodeHeader_layout_Length (hash id ty body rest : List Byte)
    (hh : hash.length = 16) (hid : id.length = 16) (hty : ty.length = 16)
    (hlen : body.length < 2 ^ 63) :
    (decodeHeader (expectedMagic ++ leBytes 8 (64 + body.length) ++ hash ++ id ++ ty
        ++ body ++ rest)).Length = 64 + body.length := by
  have hhl : (expectedMagic ++ leBytes 8 (64 + body.length) ++ hash ++ id ++ ty).length = 64 := by
    simp [expectedMagic, leBytes_length, hh, hid, hty]
  have hbuf : expectedMagic ++ leBytes 8 (64 + body.length) ++ hash ++ id ++ ty ++ body ++ rest
      = (expectedMagic ++ leBytes 8 (64 + body.length) ++ hash ++ id ++ ty) ++ (body ++ rest) := by
    simp only [List.append_assoc]
  have hpow : (256 : Nat) ^ 8 = 2 ^ 64 := by norm_num
  rw [hbuf, decodeHeader_append _ _ hhl,
    decodeHeader_fields expectedMagic _ hash id ty rfl (leBytes_length _ _) hh hid hty,
    leNat_leBytes _ _ (by omega)]

/-- The number of bytes of a header in the fixed layout followed by its body. -/
theorem layout_length (hash id ty body : List Byte)
    (hh : hash.length = 16) (hid : id.length = 16) (hty : ty.length = 16) :
    (expectedMagic ++ leBytes 8 (64 + body.length) ++ hash ++ id ++ ty ++ body).length
      = 64 + body.length := by
  simp only [List.length_append, expectedMagic, leBytes_length, hh, hid, hty,
    List.length_cons, List.length_nil]

/-- C8. Packets are read one at a time.  For a buffer that holds a first
packet (set id, type, body of a length that is a multiple of 4, with its MD5),
then a second one, then any further bytes: the call of readNextPacket returns
the first packet and leaves the buffer without its first L bytes, L being the
length field 64 + len(body) of the first header, which is the second packet and
the further bytes; the call on what is left returns the second packet and
leaves the further bytes.  And whenever a call succeeds on any buffer with
length field L, the buffer holds L bytes, the body returned is bytes 64 to L,
and what is left unread is the buffer without its first L bytes.  The bounds
on the body lengths are those every Go slice has. -/
theorem readNextPacket_one_at_a_time (id1 ty1 body1 id2 ty2 body2 rest : List Byte)
    (hid1 : id1.length = 16) (hty1 : ty1.length = 16)
    (h41 : body1.length % 4 = 0) (hlen1 : body1.length < 2 ^ 63)
    (hid2 : id2.length = 16) (hty2 : ty2.length = 16)
    (h42 : body2.length % 4 = 0) (hlen2 : body2.length < 2 ^ 63) :
    readNextPacket (expectedMagic ++ leBytes 8 (64 + body1.length)
        ++ md5.Sum (id1 ++ ty1 ++ body1) ++ id1 ++ ty1 ++ body1
        ++ (expectedMagic ++ leBytes 8 (64 + body2.length)
          ++ md5.Sum (id2 ++ ty2 ++ body2) ++ id2 ++ ty2 ++ body2 ++ rest)) =
      Outcome.ret (⟨id1, ty1, some body1, none⟩,
        expectedMagic ++ leBytes 8 (64 + body2.length)
          ++ md5.Sum (id2 ++ ty2 ++ body2) ++ id2 ++ ty2 ++ body2 ++ rest) ∧
    (decodeHeader (expectedMagic ++ leBytes 8 (64 + body1.length)
        ++ md5.Sum (id1 ++ ty1 ++ body1) ++ id1 ++ ty1 ++ body1
        ++ (expectedMagic ++ leBytes 8 (64 + body2.length)
          ++ md5.Sum (id2 ++ ty2 ++ body2) ++ id2 ++ ty2 ++ body2 ++ rest))).Length
      = 64 + body1.length ∧
    (expectedMagic ++ leBytes 8 (64 + body1.length)
        ++ md5.Sum (id1 ++ ty1 ++ body1) ++ id1 ++ ty1 ++ body1
        ++ (expectedMagic ++ leBytes 8 (64 + body2.length)
          ++ md5.Sum (id2 ++ ty2 ++ body2) ++ id2 ++ ty2 ++ body2 ++ rest)).drop
        (64 + body1.length) =
      expectedMagic ++ leBytes 8 (64 + body2.length)
        ++ md5.Sum (id2 ++ ty2 ++ body2) ++ id2 ++ ty2 ++ body2 ++ rest ∧
    readNextPacket (expectedMagic ++ leBytes 8 (64 + body2.length)
        ++ md5.Sum (id2 ++ ty2 ++ body2) ++ id2 ++ ty2 ++ body2 ++ rest) =
      Outcome.ret (⟨id2, ty2, some body2, none⟩, rest) ∧
    (expectedMagic ++ leBytes 8 (64 + body2.length)
        ++ md5.Sum (id2 ++ ty2 ++ body2) ++ id2 ++ ty2 ++ body2 ++ rest).drop
        (64 + body2.length) = rest ∧
    (∀ (buf : Buffer) (r : PacketResult) (left : Buffer),
      readNextPacket buf = Outcome.ret (r, left) → r.err = none →
        64 ≤ (decodeHeader buf).Length ∧
        (decodeHeader buf).Length ≤ buf.length ∧
        r.body = some ((buf.drop 64).take ((decodeHeader buf).Length - 64)) ∧
        left = buf.drop (decodeHeader buf).Length ∧
        buf = buf.take (decodeHeader buf).Length ++ left) := by
  have first := readNextPacket_layout_aux (md5.Sum (id1 ++ ty1 ++ body1)) id1 ty1 body1
    (expectedMagic ++ leBytes 8 (64 + body2.length)
      ++ md5.Sum (id2 ++ ty2 ++ body2) ++ id2 ++ ty2 ++ body2 ++ rest)
    (md5.Sum_length _) hid1 hty1 h41 hlen1
  have second := readNextPacket_layout_aux (md5.Sum (id2 ++ ty2 ++ body2)) id2 ty2 body2 rest
    (md5.Sum_length _) hid2 hty2 h42 hlen2
  simp only [ne_eq, not_true_eq_false, if_false] at first second
  refine ⟨first, ?_, ?_, second, ?_, ?_⟩
  · exact decodeHeader_layout_Length _ id1 ty1 body1 _ (md5.Sum_length _) hid1 hty1 hlen1
  · exact List.drop_left' (layout_length _ id1 ty1 body1 (md5.Sum_length _) hid1 hty1)
  · exact List.drop_left' (layout_length _ id2 ty2 body2 (md5.Sum_length _) hid2 hty2)
  · intro buf r left h hok
    obtain ⟨_, _, hL, _, _, hle, _, hr, hleft⟩ := readNextPacket_success buf r left h hok
    refine ⟨hL, hle, ?_, hleft, ?_⟩
    · rw [hr]
    · rw [hleft, List.take_append_drop]

/-- The theorem for C8 at two packets with zero set id and type, the bodies
1, 2, 3, 4 and 5 to 12, and the further byte 7: the first call returns the first
body and leaves the second packet and the byte 7, the second call returns the
second body and leaves the byte 7. -/
theorem readNextPacket_one_at_a_time_witness :
    readNextPacket (expectedMagic ++ leBytes 8 (64 + ([1, 2, 3, 4] : List Byte).length)
        ++ md5.Sum (zero16 ++ zero16 ++ [1, 2, 3, 4]) ++ zero16 ++ zero16 ++ [1, 2, 3, 4]
        ++ (expectedMagic ++ leBytes 8 (64 + ([5, 6, 7, 8, 9, 10, 11, 12] : List Byte).length)
          ++ md5.Sum (zero16 ++ zero16 ++ [5, 6, 7, 8, 9, 10, 11, 12]) ++ zero16 ++ zero16
          ++ [5, 6, 7, 8, 9, 10, 11, 12] ++ [7])) =
      Outcome.ret (⟨zero16, zero16, some [1, 2, 3, 4], none⟩,
        expectedMagic ++ leBytes 8 (64 + ([5, 6, 7, 8, 9, 10, 11, 12] : List Byte).length)
          ++ md5.Sum (zero16 ++ zero16 ++ [5, 6, 7, 8, 9, 10, 11, 12]) ++ zero16 ++ zero16
          ++ [5, 6, 7, 8, 9, 10, 11, 12] ++ [7]) ∧
    readNextPacket (expectedMagic
        ++ leBytes 8 (64 + ([5, 6, 7, 8, 9, 10, 11, 12] : List Byte).length)
        ++ md5.Sum (zero16 ++ zero16 ++ [5, 6, 7, 8, 9, 10, 11, 12]) ++ zero16 ++ zero16
        ++ [5, 6, 7, 8, 9, 10, 11, 12] ++ [7]) =
      Outcome.ret (⟨zero16, zero16, some [5, 6, 7, 8, 9, 10, 11, 12], none⟩, [7]) :=
  ⟨(readNextPacket_one_at_a_time zero16 zero16 [1, 2, 3, 4] zero16 zero16
      [5, 6, 7, 8, 9, 10, 11, 12] [7] (by decide) (by decide) (by decide) (by decide)
      (by decide) (by decide) (by decide) (by decide)).1,
    (readNextPacket_one_at_a_time zero16 zero16 [1, 2, 3, 4] zero16 zero16
      [5, 6, 7, 8, 9, 10, 11, 12] [7] (by decide) (by decide) (by decide) (by decide)
      (by decide) (by decide) (by decide) (by decide)).2.2.2.1⟩

/-! ## fs/fs.go: lemmas -/

theorem callRead_trace {σ : Type} (r : Reader σ) (w : World σ) (k : Nat) :
    (callRead r w k).2.2 = w.2 ++ [Call.Read k] := rfl

theorem readStrict_count {σ : Type} (r : Reader σ) (w : World σ) (k : Nat) :
    (readStrict r w k).2.2.count Call.Close = w.2.count Call.Close := by
  unfold readStrict
  by_cases hk : k = 0
  · simp [hk]
  · simp only [hk, if_false]
    split <;> simp [callRead]

theorem loop_count {σ : Type} (r : Reader σ) (fuel : Nat) (w : World σ) (buf : List Byte)
    (n : Nat) (err : Option Error) :
    (readFullEOF.loop r fuel w buf n err).2.2.count Call.Close = w.2.count Call.Close := by
  induction fuel generalizing w buf n err with
  | zero => rfl
  | succ fuel ih =>
    unfold readFullEOF.loop
    split
    · simp only
      rw [ih, readStrict_count]
    · rfl

theorem readFullEOF_count {σ : Type} (r : Reader σ) (w : World σ) (buf : List Byte) :
    (readFullEOF r w buf).2.2.count Call.Close = w.2.count Call.Close := by
  unfold readFullEOF
  simp only
  split_ifs <;> simp only [loop_count, readStrict_count]

theorem body_count {σ : Type} (rs : ReadStream σ) (w : World σ) :
    (ReadAndClose.body rs w).2.2.count Call.Close = w.2.count Call.Close := by
  unfold ReadAndClose.body
  simp only
  split_ifs <;> simp [readFullEOF_count]

theorem closeCloser_fst {σ : Type} (close : σ → Option Error × σ) (w : World σ)
    (err : Option Error) :
    (closeCloser close w err).1 = if err = none then (close w.1).1 else err := by
  by_cases h : err = none <;> simp [closeCloser, callClose, h]

theorem closeCloser_trace {σ : Type} (close : σ → Option Error × σ) (w : World σ)
    (err : Option Error) :
    (closeCloser close w err).2.2 = w.2 ++ [Call.Close] := by
  by_cases h : err = none <;> simp [closeCloser, callClose, h]

theorem closeCloser_state {σ : Type} (close : σ → Option Error × σ) (w : World σ)
    (err : Option Error) :
    (closeCloser close w err).2.1 = (close w.1).2 := by
  by_cases h : err = none <;> simp [closeCloser, callClose, h]

theorem ReadAndClose_trace {σ : Type} (rs : ReadStream σ) (w : World σ) :
    (ReadAndClose rs w).2.2 = (ReadAndClose.body rs w).2.2 ++ [Call.Close] := by
  unfold ReadAndClose
  split
  · next data err w1 heq => simp [closeCloser_trace, heq]
  · next w1 heq => simp [closeCloser_trace, heq]

theorem ReadAndClose_fst {σ : Type} (rs : ReadStream σ) (w : World σ) :
    (ReadAndClose rs w).1 =
      match (ReadAndClose.body rs w).1 with
      | Outcome.ret (data, err) =>
        Outcome.ret (data, if err = none then (rs.Close (ReadAndClose.body rs w).2.1).1 else err)
      | Outcome.panic => Outcome.panic := by
  unfold ReadAndClose
  split
  · next data err w1 heq => simp [closeCloser_fst, heq]
  · next w1 heq => simp [heq]

theorem readStrict_length_le {σ : Type} (r : Reader σ) (w : World σ) (k : Nat) :
    (readStrict r w k).1.1.length ≤ k := by
  unfold readStrict
  by_cases hk : k = 0
  · simp [hk]
  · simp only [hk, if_false]
    split_ifs <;> simp [callRead, List.length_take]

theorem readStrict_progress {σ : Type} (r : Reader σ) (w : World σ) (k : Nat)
    (h : (readStrict r w k).1.2 = none) : 0 < (readStrict r w k).1.1.length := by
  unfold readStrict at h ⊢
  by_cases hk : k = 0
  · simp [hk] at h
  · simp only [hk, if_false] at h ⊢
    split_ifs at h ⊢ with hc
    simp only at h ⊢
    by_contra h0
    exact hc ⟨by omega, h⟩

theorem store_length (buf : List Byte) (n : Nat) (chunk : List Byte)
    (h : n + chunk.length ≤ buf.length) : (store buf n chunk).length = buf.length := by
  simp only [store, List.length_append, List.length_take, List.length_drop]
  omega

/-- The fuel of readFullEOF is enough: started with n ≤ len(buf) and at least
len(buf) - n iterations, the loop stops with its condition false. -/
theorem readFullEOF_loop_exits {σ : Type} (r : Reader σ) (fuel : Nat) (w : World σ)
    (buf : List Byte) (n : Nat) (err : Option Error)
    (hn : n ≤ buf.length) (hf : buf.length ≤ n + fuel) :
    ¬ ((readFullEOF.loop r fuel w buf n err).1.2.1 < (readFullEOF.loop r fuel w buf n err).1.1.length
      ∧ (readFullEOF.loop r fuel w buf n err).1.2.2 = none) := by
  induction fuel generalizing w buf n err with
  | zero =>
    simp only [readFullEOF.loop]
    omega
  | succ fuel ih =>
    unfold readFullEOF.loop
    by_cases hc : n < buf.length ∧ err = none
    · simp only [hc, and_self, if_true]
      have hle := readStrict_length_le r w (buf.length - n)
      have hlen := store_length buf n (readStrict r w (buf.length - n)).1.1 (by omega)
      by_cases he : (readStrict r w (buf.length - n)).1.2 = none
      · have hp := readStrict_progress r w (buf.length - n) he
        exact ih (readStrict r w (buf.length - n)).2
          (store buf n (readStrict r w (buf.length - n)).1.1)
          (n + (readStrict r w (buf.length - n)).1.1.length)
          (readStrict r w (buf.length - n)).1.2 (by rw [hlen]; omega) (by rw [hlen]; omega)
      · cases fuel with
        | zero => simp only [readFullEOF.loop]; tauto
        | succ f =>
          unfold readFullEOF.loop
          simp only [he, and_false, if_false]
          tauto
    · rw [if_neg hc]
      exact hc

theorem readStrict_of_read {σ : Type} (r : Reader σ) (s : σ) (tr : List Call) (k : Nat)
    (ch : List Byte) (hne : ch ≠ []) (hk : ch.length ≤ k) (hread : (r.Read s k).1 = (ch, none)) :
    readStrict r (s, tr) k = ((ch, none), ((r.Read s k).2, tr ++ [Call.Read k])) := by
  have hpos : 0 < ch.length := List.length_pos.mpr hne
  have h0 : ¬ (k = 0) := by omega
  have h3 : ¬ (ch = []) := hne
  have htake : ch.take k = ch := List.take_of_length_le hk
  have h1 : (r.Read s k).1.1 = ch := by rw [hread]
  have h2 : (r.Read s k).1.2 = none := by rw [hread]
  unfold readStrict callRead
  simp [h0, h1, h2, htake, h3]

theorem Delivers_loop {σ : Type} (r : Reader σ) (chunks : List (List Byte)) :
    ∀ (s : σ) (tr : List Call) (pre : List Byte) (fuel : Nat),
      Delivers r chunks s → chunks.flatten.length ≤ fuel →
      ∃ w1 : World σ,
        readFullEOF.loop r fuel (s, tr) (pre ++ List.replicate chunks.flatten.length 0)
            pre.length none
          = ((pre ++ chunks.flatten, pre.length + chunks.flatten.length, none), w1) ∧
        (r.Read w1.1 1).1 = ([], some Error.EOF) := by
  induction chunks with
  | nil =>
    intro s tr pre fuel hd _
    refine ⟨(s, tr), ?_, hd⟩
    cases fuel with
    | zero => simp [readFullEOF.loop]
    | succ f => simp [readFullEOF.loop]
  | cons ch rest ih =>
    intro s tr pre fuel hd hf
    obtain ⟨hne, hread, hrest⟩ := hd
    have hchpos : 0 < ch.length := List.length_pos.mpr hne
    have htot : (ch :: rest).flatten.length = ch.length + rest.flatten.length := by
      simp
    cases fuel with
    | zero => omega
    | succ f =>
      unfold readFullEOF.loop
      have hcond : pre.length < (pre ++ List.replicate (ch :: rest).flatten.length 0).length
          ∧ (none : Option Error) = none := by
        refine ⟨?_, rfl⟩
        rw [List.length_append, List.length_replicate]; omega
      have hroom : (pre ++ List.replicate (ch :: rest).flatten.length 0).length - pre.length
          = (ch :: rest).flatten.length := by
        rw [List.length_append, List.length_replicate]; omega
      have hrs := readStrict_of_read r s tr (ch :: rest).flatten.length ch hne (by omega) hread
      have hstore : store (pre ++ List.replicate (ch :: rest).flatten.length 0) pre.length ch
          = (pre ++ ch) ++ List.replicate rest.flatten.length 0 := by
        unfold store
        rw [List.take_left, List.drop_append_eq_append_drop,
          List.drop_eq_nil_of_le (by omega : pre.length ≤ pre.length + ch.length)]
        simp only [List.nil_append, List.drop_replicate, List.append_assoc]
        congr 3
        omega
      simp only [hcond, and_self, if_true, hroom, hrs, hstore]
      obtain ⟨w1, hw1, heof⟩ := ih (r.Read s (ch :: rest).flatten.length).2
        (tr ++ [Call.Read (ch :: rest).flatten.length]) (pre ++ ch) f hrest (by omega)
      refine ⟨w1, ?_, heof⟩
      have e1 : pre.length + ch.length = (pre ++ ch).length := by simp
      rw [e1, hw1]
      simp [List.append_assoc, Nat.add_assoc]

/-! ## fs/fs.go: the claims -/

theorem wrap64_of_range (x : Int) (h1 : -2 ^ 63 ≤ x) (h2 : x < 2 ^ 63) : wrap64 x = x := by
  unfold wrap64
  omega

theorem readFullEOF_of_delivers {σ : Type} (r : Reader σ) (chunks : List (List Byte)) (s : σ)
    (tr : List Call) (hd : Delivers r chunks s) (hpos : 0 < chunks.flatten.length) :
    ∃ w1 : World σ, readFullEOF r (s, tr) (List.replicate chunks.flatten.length 0)
      = ((chunks.flatten, chunks.flatten.length, none), w1) := by
  obtain ⟨w1, hloop, heof⟩ := Delivers_loop r chunks s tr [] chunks.flatten.length hd (le_refl _)
  simp only [List.nil_append, List.length_nil, Nat.zero_add] at hloop
  have h0 : ¬ ((List.replicate chunks.flatten.length (0 : Byte)).length = 0) := by
    rw [List.length_replicate]; omega
  have hrs : (readStrict r w1 1).1.2 = some Error.EOF := by
    have h1 : (r.Read w1.1 1).1.1 = [] := by rw [heof]
    have h2 : (r.Read w1.1 1).1.2 = some Error.EOF := by rw [heof]
    unfold readStrict callRead
    simp [h1, h2]
  refine ⟨(readStrict r w1 1).2, ?_⟩
  unfold readFullEOF
  rw [if_neg h0]
  simp only [List.length_replicate, hloop, lt_irrefl, if_false, hrs]
  simp

theorem body_of_delivers {σ : Type} (rs : ReadStream σ) (s : σ) (tr : List Call)
    (chunks : List (List Byte))
    (hc : rs.ByteCount s = (chunks.flatten.length : Int))
    (hgo : chunks.flatten.length < 2 ^ 63)
    (hd : Delivers rs.toReader chunks s) :
    (ReadAndClose.body rs (s, tr)).1 = Outcome.ret (some chunks.flatten, none) ∧
    (chunks.flatten.length = 0 →
      (ReadAndClose.body rs (s, tr)).2 = (s, tr ++ [Call.ByteCount])) := by
  have hw : ¬ (wrap64 (wrap64 (chunks.flatten.length : Int)) ≠ (chunks.flatten.length : Int)) := by
    have e := wrap64_of_range (chunks.flatten.length : Int) (by omega) (by omega)
    rw [e, e]
    simp
  have hneg : ¬ ((chunks.flatten.length : Int) < 0) := by omega
  unfold ReadAndClose.body
  simp only [hc, hw, hneg, if_false, Int.toNat_ofNat, List.length_replicate]
  by_cases hpos : 0 < chunks.flatten.length
  · obtain ⟨w1, hw1⟩ := readFullEOF_of_delivers rs.toReader chunks s (tr ++ [Call.ByteCount]) hd hpos
    have hgt : chunks.flatten.length > 0 := hpos
    simp only [hgt, if_true, hw1, ne_eq, not_true_eq_false, if_false, true_and]
    omega
  · have hz : chunks.flatten.length = 0 := by omega
    have hnil : chunks.flatten = [] := List.length_eq_zero.mp hz
    have hgt : ¬ (chunks.flatten.length > 0) := by omega
    simp [hgt, hz, hnil]

/-- C5, at the failing input. The reader delivers the byte 1, then the byte 2,
each with a nil error, and buf has length 1: the loop fills buf with the first
Read, the Read after it yields one more byte and a nil error, not io.EOF, and
readFullEOF returns n = 1 with a nil error. -/
theorem readFullEOF_accepts_more_data :
    readFullEOF (scriptStream 1 none).toReader ([([1], none), ([2], none)], []) [0] =
      (([1], 1, none), ([], [Call.Read 1, Call.Read 1])) := by
  decide

/-- C6. ReadAndClose reads all the data: a stream whose ByteCount is the total
length c of the chunks, which delivers the chunks (each non-empty, any
chunking) and then io.EOF, and whose Close succeeds, gives a nil error and the
concatenation of the chunks; for c = 0 the buffer is empty and the only calls
made are ByteCount and Close.  The bound on c is that of int64. -/
theorem ReadAndClose_reads_all {σ : Type} (rs : ReadStream σ) (s : σ) (tr : List Call)
    (chunks : List (List Byte))
    (hc : rs.ByteCount s = (chunks.flatten.length : Int))
    (hgo : chunks.flatten.length < 2 ^ 63)
    (hd : Delivers rs.toReader chunks s)
    (hclose : ∀ t, (rs.Close t).1 = none) :
    (ReadAndClose rs (s, tr)).1 = Outcome.ret (some chunks.flatten, none) ∧
    (chunks.flatten.length = 0 →
      (ReadAndClose rs (s, tr)).1 = Outcome.ret (some [], none) ∧
      (ReadAndClose rs (s, tr)).2.2 = tr ++ [Call.ByteCount, Call.Close]) := by
  obtain ⟨hb1, hb2⟩ := body_of_delivers rs s tr chunks hc hgo hd
  have h1 : (ReadAndClose rs (s, tr)).1 = Outcome.ret (some chunks.flatten, none) := by
    rw [ReadAndClose_fst, hb1]
    simp [hclose]
  refine ⟨h1, fun hz => ⟨?_, ?_⟩⟩
  · rw [h1, List.length_eq_zero.mp hz]
  · rw [ReadAndClose_trace, hb2 hz]
    simp

/-- The theorem for C6 at a stream of three bytes delivered as 1 and 2, 3. -/
theorem ReadAndClose_reads_all_witness :
    (ReadAndClose (scriptStream 3 none) ([([1], none), ([2, 3], none)], [])).1
        = Outcome.ret (some [1, 2, 3], none) ∧
    (([[1], [2, 3]] : List (List Byte)).flatten.length = 0 →
      (ReadAndClose (scriptStream 3 none) ([([1], none), ([2, 3], none)], [])).1
          = Outcome.ret (some [], none) ∧
      (ReadAndClose (scriptStream 3 none) ([([1], none), ([2, 3], none)], [])).2.2
          = [] ++ [Call.ByteCount, Call.Close]) :=
  ReadAndClose_reads_all (scriptStream 3 none) [([1], none), ([2, 3], none)] []
    [[1], [2, 3]] rfl (by decide) (by simp [Delivers, scriptStream]) (fun _ => rfl)

/-- C7. ReadAndClose and WriteAndClose close their stream in all cases: every
run makes exactly one Close call, as its last call; ReadAndClose returns the
too-big error or the read error when there is one and otherwise the error of
Close; WriteAndClose returns the write error when there is one and otherwise
the error of Close. -/
theorem close_in_all_cases {σ τ : Type} (rs : ReadStream σ) (w : World σ)
    (ws : WriteStream τ) (v : World τ) (p : List Byte) :
    (ReadAndClose rs w).2.2.count Call.Close = w.2.count Call.Close + 1 ∧
    (ReadAndClose rs w).2.2.getLast? = some Call.Close ∧
    (ReadAndClose rs w).1 =
      (if wrap64 (wrap64 (rs.ByteCount w.1)) ≠ rs.ByteCount w.1 then
        Outcome.ret (none, some Error.fileTooBig)
      else if rs.ByteCount w.1 < 0 then Outcome.panic
      else if 0 < (rs.ByteCount w.1).toNat then
        if (readFullEOF rs.toReader (w.1, w.2 ++ [Call.ByteCount])
            (List.replicate (rs.ByteCount w.1).toNat 0)).1.2.2 ≠ none then
          Outcome.ret (none, (readFullEOF rs.toReader (w.1, w.2 ++ [Call.ByteCount])
            (List.replicate (rs.ByteCount w.1).toNat 0)).1.2.2)
        else
          Outcome.ret (some (readFullEOF rs.toReader (w.1, w.2 ++ [Call.ByteCount])
              (List.replicate (rs.ByteCount w.1).toNat 0)).1.1,
            (rs.Close (readFullEOF rs.toReader (w.1, w.2 ++ [Call.ByteCount])
              (List.replicate (rs.ByteCount w.1).toNat 0)).2.1).1)
      else Outcome.ret (some [], (rs.Close w.1).1)) ∧
    (WriteAndClose ws v p).2.2.count Call.Close = v.2.count Call.Close + 1 ∧
    (WriteAndClose ws v p).2.2.getLast? = some Call.Close ∧
    (WriteAndClose ws v p).1 =
      (if (ws.Write v.1 p).1.2 = none then (ws.Close (ws.Write v.1 p).2).1
      else (ws.Write v.1 p).1.2) := by
  refine ⟨?_, ?_, ?_, ?_, ?_, ?_⟩
  · rw [ReadAndClose_trace, List.count_append, body_count]
    simp
  · rw [ReadAndClose_trace]
    simp
  · rw [ReadAndClose_fst]
    unfold ReadAndClose.body
    simp only [List.length_replicate, gt_iff_lt]
    split_ifs <;> simp_all
  · unfold WriteAndClose
    simp only [closeCloser_trace, List.count_append]
    simp
  · unfold WriteAndClose
    simp only [closeCloser_trace]
    simp
  · unfold WriteAndClose
    simp only [closeCloser_fst]

end Gopar
